import Mathlib

/-!
Verification development for `src/expression.py` of sqlalchemy-column-flag:
runtime Python evaluation of SQLAlchemy expression trees by serialization to
a reverse Polish notation symbol sequence and stack-based evaluation.
The definitions below are a shallow embedding of that module.
-/

set_option maxHeartbeats 1000000
set_option linter.unusedVariables false

/-- Python runtime values that can flow through the evaluator: None, booleans,
integers, strings, and lists of values (from `Grouping` literals). -/
inductive Value where
  | none
  | bool (b : Bool)
  | int (n : Int)
  | str (s : String)
  | list (vs : List Value)

/-- A SQLAlchemy `Column`: a stable hashable identity (its name) together with
the one type fact the module inspects, `isinstance(expr.type, Boolean)`. -/
structure Column where
  name : String
  isBool : Bool
deriving DecidableEq

/-- The Python callables that occur as operator payloads in serialized symbols:
the values of `OPERATOR_MAP` (the membership lambda, `operator.eq`,
`operator.ne`, `operator.not_`), the unary `operator.inv`, the clause-list
combinators `operators.and_` / `operators.or_`, and generic comparison
operators appearing on binary expressions. -/
inductive Fn where
  | memberOf
  | eq
  | ne
  | not_
  | inv
  | and_
  | or_
  | lt
  | gt
deriving DecidableEq

/-- The SQLAlchemy operators that are keys of `OPERATOR_MAP`. -/
inductive MapOp where
  | in_op
  | is_
  | isnot
  | istrue
  | isfalse
deriving DecidableEq

/-- The operator of a `BinaryExpression` node: one of the `OPERATOR_MAP` keys,
a directly evaluatable callable, or an opaque `operators.custom_op`. -/
inductive BinOp where
  | mapped (op : MapOp)
  | raw (f : Fn)
  | custom (name : String)
deriving DecidableEq

/-- The SQLAlchemy expression-tree shapes distinguished by
`Expression._serialize`. `grouping` carries the `.value` of each
`BindParameter` element of the wrapped clause list; `other` stands for any
`ClauseElement` subtype outside the recognized set (the final `else` branch). -/
inductive ClauseElement where
  | bindParameter (v : Value)
  | grouping (values : List Value)
  | null
  | column (c : Column)
  | asBoolean (c : Column) (op : MapOp)
  | unary (f : Fn) (element : ClauseElement)
  | clauseList (f : Fn) (clauses : List ClauseElement)
  | binary (left : ClauseElement) (op : BinOp) (right : ClauseElement)
  | other (typeName : String)

/-- A serialized `Symbol`, tagged as by `Symbol._determine_type`: a
non-callable non-column value is a literal, a `Column` is a column reference,
and a callable is an operator carrying the arity it is applied at.
(Named `RpnSymbol` because `Symbol` is taken by the ambient library.) -/
inductive RpnSymbol where
  | literal (v : Value)
  | column (c : Column)
  | operator (f : Fn) (arity : Nat)

/-- `OPERATOR_MAP` from the source; `operators.istrue` maps to Python `None`. -/
def OPERATOR_MAP : MapOp → Option Fn
  | .in_op => some .memberOf
  | .is_ => some .eq
  | .isnot => some .ne
  | .istrue => Option.none
  | .isfalse => some .not_

/-- Python truthiness (`bool(x)`) for the embedded values. -/
def truthy : Value → Bool
  | .none => false
  | .bool b => b
  | .int n => n != 0
  | .str s => s != ""
  | .list vs => !vs.isEmpty

/-- Numeric view used by Python comparison and equality: booleans are the
integers 0 and 1. -/
def asNum : Value → Option Int
  | .bool b => some (if b then 1 else 0)
  | .int n => some n
  | _ => Option.none

mutual

/-- Python `==` on the embedded values: `None` equals only itself, numbers
compare through the numeric view (so `True == 1`), strings and lists compare
structurally (lists element by element with `==`). -/
def pyEq : Value → Value → Bool
  | .none, .none => true
  | .bool a, .bool b => a == b
  | .bool a, .int n => (if a then (1 : Int) else 0) == n
  | .int n, .bool b => n == (if b then (1 : Int) else 0)
  | .int a, .int b => a == b
  | .str a, .str b => a == b
  | .list a, .list b => pyEqList a b
  | _, _ => false

/-- Elementwise Python `==` on lists. -/
def pyEqList : List Value → List Value → Bool
  | [], [] => true
  | a :: as1, b :: bs1 => pyEq a b && pyEqList as1 bs1
  | _, _ => false

end

/-- Python `left in right` (the `OPERATOR_MAP` lambda for `in_op`): membership
by `==` in a list, the substring test when both operands are strings;
`Option.none` models the `TypeError` Python raises for every other right
operand (and for a non-string left operand with a string right operand). -/
def pyIn (left right : Value) : Option Value :=
  match right with
  | .list vs => some (.bool (vs.any (fun v => pyEq left v)))
  | .str t =>
    match left with
    | .str s => some (.bool (decide (s.data <:+: t.data)))
    | _ => Option.none
  | _ => Option.none

/-- Python `operator.inv` (`~x`) on integers, with booleans as 0 and 1;
`Option.none` models the `TypeError` raised on any other operand. -/
def pyInv (v : Value) : Option Value :=
  match asNum v with
  | some x => some (.int (-x - 1))
  | Option.none => Option.none

/-- Python `operator.and_` (`a & b`): boolean conjunction on two booleans;
on any other pair of numbers (booleans promoted to 0/1, so `True & 1` is the
integer 1) the bitwise conjunction; `Option.none` models the `TypeError`
raised on non-numeric operands. -/
def pyAnd (a b : Value) : Option Value :=
  match a, b with
  | .bool x, .bool y => some (.bool (x && y))
  | a, b =>
    match asNum a, asNum b with
    | some x, some y => some (.int (Int.land x y))
    | _, _ => Option.none

/-- Python `operator.or_` (`a | b`): boolean disjunction on two booleans; on
any other pair of numbers the bitwise disjunction; `Option.none` models the
`TypeError` raised on non-numeric operands. -/
def pyOr (a b : Value) : Option Value :=
  match a, b with
  | .bool x, .bool y => some (.bool (x || y))
  | a, b =>
    match asNum a, asNum b with
    | some x, some y => some (.int (Int.lor x y))
    | _, _ => Option.none

mutual

/-- Python `a < b`: on numbers through the numeric view, on strings and on
lists lexicographically; `Option.none` models the `TypeError` raised on any
other pair (e.g. an integer against a string). -/
def pyLt (a b : Value) : Option Value :=
  match a, b with
  | .str s, .str t => some (.bool (decide (s < t)))
  | .list xs, .list ys =>
    match pyLtList xs ys with
    | some r => some (.bool r)
    | Option.none => Option.none
  | a, b =>
    match asNum a, asNum b with
    | some x, some y => some (.bool (decide (x < y)))
    | _, _ => Option.none

/-- Python list comparison: skip `==`-equal prefixes, compare the first
differing elements with `<` (which may itself raise), else compare lengths. -/
def pyLtList : List Value → List Value → Option Bool
  | [], [] => some false
  | [], _ :: _ => some true
  | _ :: _, [] => some false
  | x :: xs, y :: ys =>
    if pyEq x y then pyLtList xs ys
    else
      match pyLt x y with
      | some (.bool r) => some r
      | _ => Option.none

end

/-- Application of an operator callable to the values popped off the stack, in
popped order. `Option.none` models the `TypeError` that Python's
`value(*stack.popn(arity))` call raises — from a call at the wrong argument
count (the catch-all: e.g. `operator.not_` at arity 2, `operators.and_` at an
arity other than 2, the two-parameter membership lambda at arity 1) or from an
operand of an unsupported type inside the callable itself. -/
def applyFn : Fn → List Value → Option Value
  | .memberOf, [l, r] => pyIn l r
  | .eq, [a, b] => some (.bool (pyEq a b))
  | .ne, [a, b] => some (.bool (!pyEq a b))
  | .not_, [a] => some (.bool (!truthy a))
  | .inv, [a] => pyInv a
  | .and_, [a, b] => pyAnd a b
  | .or_, [a, b] => pyOr a b
  | .lt, [a, b] => pyLt a b
  | .gt, [a, b] => pyLt b a
  | _, _ => Option.none

/-- Compilation failures: `Expression._serialize` raises `TypeError` both for
an opaque custom binary operator and for an unrecognized expression shape. -/
inductive SerializeError where
  | unsupportedOperator (name : String)
  | unsupportedExpression (typeName : String)
deriving DecidableEq

/-- Whether an element is a bare `Column` node (`isinstance(target, Column)`). -/
def isColumnElem : ClauseElement → Bool
  | .column _ => true
  | _ => false

/-- The symbol emitted for a binary operator:
`Symbol(OPERATOR_MAP.get(expr.operator, expr.operator), arity=2)`.
For `istrue` the map holds Python `None`, which is not callable, so the emitted
symbol is a literal `None` (see `Symbol._determine_type`). The `custom` case is
unreachable because `_serialize` raises before emitting a symbol for it. -/
def binarySym : BinOp → RpnSymbol
  | .mapped mop =>
    match OPERATOR_MAP mop with
    | some f => .operator f 2
    | Option.none => .literal .none
  | .raw f => .operator f 2
  | .custom _ => .literal .none

mutual

/-- `Expression._serialize`: converts an expression tree into its reverse
Polish symbol sequence, or fails as the generator raises when forced. The
recursive calls mirror the source, including the constructed
`expr.isnot(None)` / `target.is_(None)` trees in force-boolean mode and the
right-before-left order (with the default `force_bool=False`) on binary nodes. -/
def serialize : ClauseElement → Bool → Except SerializeError (List RpnSymbol)
  | .bindParameter v, _ => .ok [.literal v]
  | .grouping vs, _ => .ok [.literal (.list vs)]
  | .null, _ => .ok [.literal .none]
  | .column c, force_bool =>
    if h : force_bool = true ∧ c.isBool = false then
      serialize (.binary (.column c) (.mapped .isnot) .null) false
    else
      .ok [.column c]
  | .asBoolean c mop, _ =>
    .ok ([.column c] ++
      match OPERATOR_MAP mop with
      | some f => [.operator f 1]
      | Option.none => [])
  | .unary f target, force_bool =>
    if h : force_bool = true ∧ f = .inv ∧ isColumnElem target = true then
      serialize (.binary target (.mapped .is_) .null) false
    else
      match serialize target force_bool with
      | .ok inner => .ok (inner ++ [.operator f 1])
      | .error e => .error e
  | .clauseList f cs, force_bool =>
    match serializeList cs force_bool with
    | .ok inner => .ok (inner ++ [.operator f cs.length])
    | .error e => .error e
  | .binary l op r, force_bool =>
    match op with
    | .custom s => .error (.unsupportedOperator s)
    | op =>
      match serialize r false with
      | .error e => .error e
      | .ok ir =>
        match serialize l false with
        | .error e => .error e
        | .ok il => .ok (ir ++ il ++ [binarySym op])
  | .other typeName, force_bool => .error (.unsupportedExpression typeName)
termination_by e force_bool => (if force_bool then 5 else 0) + sizeOf e
decreasing_by
  all_goals simp_wf
  all_goals try rw [h.1]
  all_goals try (cases force_bool)
  all_goals simp_arith

/-- Serialization of the clauses of a `BooleanClauseList`, in order. -/
def serializeList : List ClauseElement → Bool → Except SerializeError (List RpnSymbol)
  | [], _ => .ok []
  | c :: rest, force_bool =>
    match serialize c force_bool with
    | .error e => .error e
    | .ok ic =>
      match serializeList rest force_bool with
      | .error e => .error e
      | .ok irest => .ok (ic ++ irest)
termination_by l force_bool => (if force_bool then 5 else 0) + sizeOf l
decreasing_by
  all_goals simp_wf
  all_goals try (cases force_bool)
  all_goals simp_arith

end

mutual

/-- `rephrase_as_boolean` from the source: bare non-Boolean columns become
`column IS NOT NULL`; a unary node whose operator is `operator.inv` and whose
element is a bare `Column` (of any type: the source checks no type here)
becomes `column IS NULL`; a `BooleanClauseList` gets its clauses rephrased
(in place in the source); everything else is returned unchanged. -/
def rephrase_as_boolean : ClauseElement → ClauseElement
  | .column c =>
    if c.isBool = false then .binary (.column c) (.mapped .isnot) .null
    else .column c
  | .unary f element =>
    if f = .inv ∧ isColumnElem element = true then
      .binary element (.mapped .is_) .null
    else .unary f element
  | .clauseList f cs => .clauseList f (rephraseList cs)
  | e => e
termination_by e => sizeOf e

/-- The `list(map(rephrase_as_boolean, expr.clauses))` of the source. -/
def rephraseList : List ClauseElement → List ClauseElement
  | [] => []
  | c :: rest => rephrase_as_boolean c :: rephraseList rest
termination_by l => sizeOf l

end

/-- Whether an element is a `BooleanClauseList` node. -/
def isClauseList : ClauseElement → Bool
  | .clauseList _ _ => true
  | _ => false

/-- Modelled aliasing effect of a force-boolean compilation on the caller's
original tree: `rephrase_as_boolean` reassigns `expr.clauses` of a
`BooleanClauseList` in place (`expr.clauses = list(map(...))`), so afterwards
the caller's original clause-list object holds the rephrased children, while
every other node shape is returned as a fresh or unchanged object and the
caller's tree is untouched. -/
def treeAfterCompile : ClauseElement → ClauseElement
  | .clauseList f cs => rephrase_as_boolean (.clauseList f cs)
  | e => e

/-- The `Expression` class: the (possibly rephrased) SQL tree stored on the
`sql` attribute, and the serialized symbol sequence. -/
structure Expression where
  sql : ClauseElement
  serialized : List RpnSymbol

/-- `Expression.__init__`: stores the rephrased tree when `force_bool` is set
and serializes the expression; a `TypeError` raised while the serialization
generator is forced into a tuple propagates to the caller, constructing
nothing. (The source serializes after `rephrase_as_boolean` has run, so a
clause list is serialized with its already-rephrased children; serializing a
rephrased child in force-boolean mode emits the same symbols as serializing
the original child, so serializing the original tree is extensionally the
same.) -/
def Expression.make (expression : ClauseElement) (force_bool : Bool) :
    Except SerializeError Expression :=
  match serialize expression force_bool with
  | .ok symbols =>
    .ok { sql := if force_bool then rephrase_as_boolean expression else expression
          serialized := symbols }
  | .error e => .error e

/-- Evaluation failures: a column absent from the supplied mapping (`KeyError`
on `column_values[value]`), a pop from an empty stack (`IndexError`), or a
`TypeError` raised by an operator callable applied at a mismatched argument
count or to operands of unsupported types (`value(*stack.popn(arity))`). -/
inductive EvalError where
  | missingColumnValue (c : Column)
  | stackUnderflow
  | typeError

/-- The mapping from columns to substitute values supplied to `evaluate`; a
column absent from the Python dict is sent to `Option.none`. -/
def ColumnValues : Type := Column → Option Value

/-- `Stack.popn`: pops `size` values, most recently pushed first, returning
them in popped order together with the remaining stack; fails when the stack
runs out. -/
def popn : List Value → Nat → Option (List Value × List Value)
  | s, 0 => some ([], s)
  | [], _ + 1 => Option.none
  | v :: s, n + 1 =>
    match popn s n with
    | some (args, rest) => some (v :: args, rest)
    | Option.none => Option.none

/-- One iteration of the `evaluate` loop, on one symbol: push a literal, push
the looked-up column value, or pop `arity` values and push the operator
applied to them in popped order; the application aborts evaluation with a
`TypeError` when the callable rejects the call. -/
def stepSym (column_values : ColumnValues) (s : List Value) :
    RpnSymbol → Except EvalError (List Value)
  | .literal v => .ok (v :: s)
  | .column c =>
    match column_values c with
    | some v => .ok (v :: s)
    | Option.none => .error (.missingColumnValue c)
  | .operator f arity =>
    match popn s arity with
    | some (args, rest) =>
      match applyFn f args with
      | some v => .ok (v :: rest)
      | Option.none => .error .typeError
    | Option.none => .error .stackUnderflow

/-- The `evaluate` loop over the whole symbol sequence, threading the stack
(head of the list is the top of the stack). -/
def runSyms (column_values : ColumnValues) :
    List RpnSymbol → List Value → Except EvalError (List Value)
  | [], s => .ok s
  | sym :: rest, s =>
    match stepSym column_values s sym with
    | .ok s2 => runSyms column_values rest s2
    | .error e => .error e

/-- `Expression.evaluate`: run the serialized sequence on a fresh stack and
return `stack.pop()` (whatever else the stack still holds is discarded; a pop
from an empty stack raises). -/
def evaluate (serialized : List RpnSymbol) (column_values : ColumnValues) :
    Except EvalError Value :=
  match runSyms column_values serialized [] with
  | .ok (v :: _) => .ok v
  | .ok [] => .error .stackUnderflow
  | .error e => .error e

/-- The payload of a column symbol, used to build the column set. -/
def symColumn : RpnSymbol → Option Column
  | .column c => some c
  | _ => Option.none

/-- `Expression.columns`: the set of columns used in the expression, i.e. the
distinct payloads of the column-typed symbols of the serialized sequence. -/
def columns (serialized : List RpnSymbol) : Finset Column :=
  (serialized.filterMap symColumn).toFinset

/-- `Expression.evaluate` as a method of the structure. -/
def Expression.eval (ex : Expression) (column_values : ColumnValues) :
    Except EvalError Value :=
  evaluate ex.serialized column_values

/-- `Expression.columns` as a method of the structure. -/
def Expression.columnSet (ex : Expression) : Finset Column :=
  columns ex.serialized

mutual

/-- No binary node of the tree carries the mapped `istrue` operator. For such
a node `OPERATOR_MAP.get` yields Python `None`, so the emitted symbol is a
literal pushed without popping, and the final stack holds extra values. -/
def noBinaryIsTrue : ClauseElement → Bool
  | .unary _ element => noBinaryIsTrue element
  | .clauseList _ cs => noBinaryIsTrueList cs
  | .binary l op r =>
    (op != .mapped .istrue) && noBinaryIsTrue l && noBinaryIsTrue r
  | _ => true
termination_by e => sizeOf e

/-- `noBinaryIsTrue` on every clause of a list. -/
def noBinaryIsTrueList : List ClauseElement → Bool
  | [] => true
  | c :: rest => noBinaryIsTrue c && noBinaryIsTrueList rest
termination_by l => sizeOf l

end

/-- A mapping holding a value for exactly one column. -/
def singleVal (c : Column) (v : Value) : ColumnValues :=
  fun x => if x = c then some v else Option.none

/-- A mapping holding values for exactly two columns. -/
def twoVals (a : Column) (va : Value) (b : Column) (vb : Value) : ColumnValues :=
  fun x => if x = a then some va else if x = b then some vb else Option.none

theorem runSyms_append (m : ColumnValues) (a b : List RpnSymbol) (s : List Value) :
    runSyms m (a ++ b) s =
      match runSyms m a s with
      | .ok s2 => runSyms m b s2
      | .error e => .error e := by
  induction a generalizing s with
  | nil => simp [runSyms]
  | cons sym rest ih =>
    simp only [List.cons_append, runSyms]
    cases stepSym m s sym <;> simp [ih]

theorem popn_append (s : List Value) (n : Nat) :
    ∀ w : List Value, n ≤ w.length →
      popn (w ++ s) n = some (w.take n, w.drop n ++ s) := by
  induction n with
  | zero => intro w _; simp [popn]
  | succ k ih =>
    intro w hw
    cases w with
    | nil => simp at hw
    | cons v w2 =>
      simp only [List.cons_append, popn, List.append_eq]
      rw [ih w2 (by simpa using hw)]
      simp

theorem runSyms_ok_isSome (m : ColumnValues) (syms : List RpnSymbol) :
    ∀ (s t : List Value), runSyms m syms s = .ok t →
      ∀ c, RpnSymbol.column c ∈ syms → (m c).isSome := by
  induction syms with
  | nil => intro s t _ c hc; simp at hc
  | cons sym rest ih =>
    intro s t h c hc
    simp only [runSyms] at h
    cases hstep : stepSym m s sym with
    | error e => rw [hstep] at h; simp at h
    | ok s2 =>
      rw [hstep] at h
      rcases List.mem_cons.mp hc with heq | hmem
      · subst heq
        simp only [stepSym] at hstep
        cases hm : m c with
        | none => rw [hm] at hstep; simp at hstep
        | some v => simp [hm]
      · exact ih s2 t h c hmem

theorem mem_columns (syms : List RpnSymbol) (c : Column) :
    c ∈ columns syms ↔ RpnSymbol.column c ∈ syms := by
  simp only [columns, List.mem_toFinset, List.mem_filterMap]
  constructor
  · rintro ⟨sym, hmem, hc⟩
    cases sym <;> simp [symColumn] at hc
    rwa [hc] at hmem
  · intro hmem
    exact ⟨.column c, hmem, rfl⟩

theorem pyEq_none_iff (v : Value) : pyEq v .none = true ↔ v = .none := by
  cases v <;> simp [pyEq]

theorem isColumnElem_iff (e : ClauseElement) :
    isColumnElem e = true ↔ ∃ c, e = .column c := by
  cases e <;> simp [isColumnElem]

theorem serialize_column (c : Column) (fb : Bool) :
    serialize (.column c) fb =
      if h : fb = true ∧ c.isBool = false then
        serialize (.binary (.column c) (.mapped .isnot) .null) false
      else .ok [.column c] := by
  rw [serialize.eq_def]

theorem serialize_unary (f : Fn) (target : ClauseElement) (fb : Bool) :
    serialize (.unary f target) fb =
      if h : fb = true ∧ f = .inv ∧ isColumnElem target = true then
        serialize (.binary target (.mapped .is_) .null) false
      else
        match serialize target fb with
        | .ok inner => .ok (inner ++ [.operator f 1])
        | .error e => .error e := by
  rw [serialize.eq_def]

theorem serialize_clauseList (f : Fn) (cs : List ClauseElement) (fb : Bool) :
    serialize (.clauseList f cs) fb =
      match serializeList cs fb with
      | .ok inner => .ok (inner ++ [.operator f cs.length])
      | .error e => .error e := by
  rw [serialize.eq_def]

theorem serialize_binary (l r : ClauseElement) (op : BinOp) (fb : Bool) :
    serialize (.binary l op r) fb =
      match op with
      | .custom s => .error (.unsupportedOperator s)
      | op =>
        match serialize r false with
        | .error e => .error e
        | .ok ir =>
          match serialize l false with
          | .error e => .error e
          | .ok il => .ok (ir ++ il ++ [binarySym op]) := by
  rw [serialize.eq_def]

theorem serializeList_cons (c : ClauseElement) (rest : List ClauseElement) (fb : Bool) :
    serializeList (c :: rest) fb =
      match serialize c fb with
      | .error e => .error e
      | .ok ic =>
        match serializeList rest fb with
        | .error e => .error e
        | .ok irest => .ok (ic ++ irest) := by
  rw [serializeList.eq_def]

theorem binarySym_shape (op : BinOp) :
    (∃ f, binarySym op = .operator f 2) ∨ binarySym op = .literal Value.none := by
  cases op with
  | mapped mop => cases mop <;> simp [binarySym, OPERATOR_MAP]
  | raw f => exact .inl ⟨f, rfl⟩
  | custom s => exact .inr rfl

theorem binarySym_op_of_ne (op : BinOp)
    (hnc : ∀ s, op = BinOp.custom s → False)
    (hne : (op != BinOp.mapped .istrue) = true) :
    ∃ f, binarySym op = .operator f 2 := by
  cases op with
  | mapped mop => cases mop <;> simp_all [binarySym, OPERATOR_MAP]
  | raw f => exact ⟨f, rfl⟩
  | custom s => exact absurd rfl (fun hh => hnc s hh)

theorem serialize_colpos (c : Column) :
    serialize (.binary (.column c) (.mapped .isnot) .null) false =
      .ok [.literal .none, .column c, .operator .ne 2] := by
  rw [serialize_binary, serialize_column]
  simp [serialize, binarySym, OPERATOR_MAP]

theorem serialize_colneg (c : Column) :
    serialize (.binary (.column c) (.mapped .is_) .null) false =
      .ok [.literal .none, .column c, .operator .eq 2] := by
  rw [serialize_binary, serialize_column]
  simp [serialize, binarySym, OPERATOR_MAP]


theorem run_op_tail (m : ColumnValues) (f : Fn) (n : Nat) (w s : List Value)
    (hlen : n ≤ w.length) :
    runSyms m [.operator f n] (w ++ s) = .error .typeError ∨
    ∃ v, applyFn f (w.take n) = some v ∧
      runSyms m [.operator f n] (w ++ s) = .ok ((v :: w.drop n) ++ s) := by
  cases happ : applyFn f (w.take n) with
  | none => exact .inl (by simp [runSyms, stepSym, popn_append s n w hlen, happ])
  | some v =>
    exact .inr ⟨v, rfl, by simp [runSyms, stepSym, popn_append s n w hlen, happ]⟩

theorem run_null_col_op (m : ColumnValues) (c : Column) (g : Fn) (s : List Value) :
    (∃ c2, runSyms m [.literal .none, .column c, .operator g 2] s =
        .error (.missingColumnValue c2) ∧
        RpnSymbol.column c2 ∈ [RpnSymbol.literal .none, .column c, .operator g 2] ∧
        m c2 = Option.none) ∨
    runSyms m [.literal .none, .column c, .operator g 2] s = .error .typeError ∨
    (∃ w, runSyms m [.literal .none, .column c, .operator g 2] s = .ok (w ++ s) ∧
        1 ≤ w.length ∧ w.length = 1) := by
  cases hm : m c with
  | none => exact .inl ⟨c, by simp [runSyms, stepSym, hm], by simp, hm⟩
  | some v =>
    cases happ : applyFn g [v, .none] with
    | none => exact .inr (.inl (by simp [runSyms, stepSym, hm, popn, happ]))
    | some u =>
      exact .inr (.inr ⟨[u], by simp [runSyms, stepSym, hm, popn, happ],
        by simp, rfl⟩)

theorem run_binary_tail (m : ColumnValues) (ir il : List RpnSymbol) (bsym : RpnSymbol)
    (PR PL Q : Prop) (s : List Value)
    (IHr : ∀ s0 : List Value,
      (∃ c, runSyms m ir s0 = .error (.missingColumnValue c) ∧
          RpnSymbol.column c ∈ ir ∧ m c = Option.none) ∨
      runSyms m ir s0 = .error .typeError ∨
      (∃ w, runSyms m ir s0 = .ok (w ++ s0) ∧ 1 ≤ w.length ∧ (PR → w.length = 1)))
    (IHl : ∀ s0 : List Value,
      (∃ c, runSyms m il s0 = .error (.missingColumnValue c) ∧
          RpnSymbol.column c ∈ il ∧ m c = Option.none) ∨
      runSyms m il s0 = .error .typeError ∨
      (∃ w, runSyms m il s0 = .ok (w ++ s0) ∧ 1 ≤ w.length ∧ (PL → w.length = 1)))
    (hsym : (∃ f, bsym = .operator f 2) ∨ bsym = .literal Value.none)
    (hQR : Q → PR) (hQL : Q → PL) (hQop : Q → ∃ f, bsym = .operator f 2) :
    (∃ c, runSyms m (ir ++ (il ++ [bsym])) s = .error (.missingColumnValue c) ∧
        RpnSymbol.column c ∈ ir ++ (il ++ [bsym]) ∧ m c = Option.none) ∨
    runSyms m (ir ++ (il ++ [bsym])) s = .error .typeError ∨
    (∃ w, runSyms m (ir ++ (il ++ [bsym])) s = .ok (w ++ s) ∧ 1 ≤ w.length ∧
        (Q → w.length = 1)) := by
  rcases IHr s with ⟨c, hrun, hmem, hm⟩ | hrun | ⟨wr, hrunr, hlenr, honer⟩
  · refine .inl ⟨c, ?_, ?_, hm⟩
    · simp only [runSyms_append, hrun]
    · exact List.mem_append.mpr (.inl hmem)
  · exact .inr (.inl (by simp only [runSyms_append, hrun]))
  · rcases IHl (wr ++ s) with ⟨c, hrun, hmem, hm⟩ | hrun | ⟨wl, hrunl, hlenl, honel⟩
    · refine .inl ⟨c, ?_, ?_, hm⟩
      · simp only [runSyms_append, hrunr, hrun]
      · exact List.mem_append.mpr (.inr (List.mem_append.mpr (.inl hmem)))
    · exact .inr (.inl (by simp only [runSyms_append, hrunr, hrun]))
    · rcases hsym with ⟨f, rfl⟩ | rfl
      · have hlen2 : 2 ≤ (wl ++ wr).length := by
          simp only [List.length_append]; omega
        have hstack : wl ++ (wr ++ s) = (wl ++ wr) ++ s :=
          (List.append_assoc wl wr s).symm
        rcases run_op_tail m f 2 (wl ++ wr) s hlen2 with htail | ⟨v, happ, htail⟩
        · refine .inr (.inl ?_)
          simp only [runSyms_append, hrunr, hrunl, hstack, htail]
        · refine .inr (.inr ⟨v :: (wl ++ wr).drop 2, ?_,
            by simp only [List.length_cons]; omega, ?_⟩)
          · simp only [runSyms_append, hrunr, hrunl, hstack, htail]
          · intro hq
            have h1 : wl.length = 1 := honel (hQL hq)
            have h2 : wr.length = 1 := honer (hQR hq)
            have hdrop : (wl ++ wr).drop 2 = [] := by
              have hl2 : (wl ++ wr).length = 2 := by
                simp only [List.length_append]; omega
              rw [← hl2]; exact List.drop_length _
            simp [hdrop]
      · refine .inr (.inr ⟨Value.none :: (wl ++ wr), ?_,
          by simp only [List.length_cons]; omega, ?_⟩)
        · simp only [runSyms_append, hrunr, hrunl, runSyms, stepSym]
          simp
        · intro hq
          rcases hQop hq with ⟨f, hf⟩
          exact RpnSymbol.noConfusion hf

mutual

theorem run_serialize (e : ClauseElement) (fb : Bool) (syms : List RpnSymbol)
    (h : serialize e fb = .ok syms) (m : ColumnValues) (s : List Value) :
    (∃ c, runSyms m syms s = .error (.missingColumnValue c) ∧
        RpnSymbol.column c ∈ syms ∧ m c = Option.none) ∨
    runSyms m syms s = .error .typeError ∨
    (∃ w, runSyms m syms s = .ok (w ++ s) ∧ 1 ≤ w.length ∧
        (noBinaryIsTrue e = true → w.length = 1)) := by
  cases e with
  | bindParameter v =>
    simp only [serialize, Except.ok.injEq] at h
    subst h
    exact .inr (.inr ⟨[v], by simp [runSyms, stepSym], by simp, by simp⟩)
  | grouping vs =>
    simp only [serialize, Except.ok.injEq] at h
    subst h
    exact .inr (.inr ⟨[.list vs], by simp [runSyms, stepSym], by simp, by simp⟩)
  | null =>
    simp only [serialize, Except.ok.injEq] at h
    subst h
    exact .inr (.inr ⟨[.none], by simp [runSyms, stepSym], by simp, by simp⟩)
  | column c =>
    rw [serialize_column] at h
    split at h
    · rw [serialize_colpos] at h
      simp only [Except.ok.injEq] at h
      subst h
      rcases run_null_col_op m c .ne s with ⟨c2, a, b, d⟩ | hte | ⟨w, a, b, d⟩
      · exact .inl ⟨c2, a, b, d⟩
      · exact .inr (.inl hte)
      · exact .inr (.inr ⟨w, a, b, fun _ => d⟩)
    · simp only [Except.ok.injEq] at h
      subst h
      cases hm : m c with
      | none => exact .inl ⟨c, by simp [runSyms, stepSym, hm], by simp, hm⟩
      | some v =>
        exact .inr (.inr ⟨[v], by simp [runSyms, stepSym, hm], by simp, by simp⟩)
  | asBoolean c mop =>
    cases hOp : OPERATOR_MAP mop with
    | none =>
      simp only [serialize, hOp, List.append_nil, Except.ok.injEq] at h
      subst h
      cases hm : m c with
      | none => exact .inl ⟨c, by simp [runSyms, stepSym, hm], by simp, hm⟩
      | some v =>
        exact .inr (.inr ⟨[v], by simp [runSyms, stepSym, hm], by simp, by simp⟩)
    | some f =>
      simp only [serialize, hOp, Except.ok.injEq] at h
      subst h
      cases hm : m c with
      | none => exact .inl ⟨c, by simp [runSyms, stepSym, hm], by simp, hm⟩
      | some v =>
        cases happ : applyFn f [v] with
        | none =>
          refine .inr (.inl ?_)
          simp [runSyms, stepSym, hm, popn, happ]
        | some u =>
          refine .inr (.inr ⟨[u], ?_, by simp, by simp⟩)
          simp [runSyms, stepSym, hm, popn, happ]
  | unary f target =>
    rw [serialize_unary] at h
    split at h
    · rename_i h1
      obtain ⟨c, rfl⟩ := (isColumnElem_iff target).mp h1.2.2
      rw [serialize_colneg] at h
      simp only [Except.ok.injEq] at h
      subst h
      rcases run_null_col_op m c .eq s with ⟨c2, a, b, d⟩ | hte | ⟨w, a, b, d⟩
      · exact .inl ⟨c2, a, b, d⟩
      · exact .inr (.inl hte)
      · exact .inr (.inr ⟨w, a, b, fun _ => d⟩)
    · cases hin : serialize target fb with
      | error e2 => simp only [hin] at h; exact Except.noConfusion h
      | ok inner =>
        simp only [hin, Except.ok.injEq] at h
        subst h
        rcases run_serialize target fb inner hin m s with
          ⟨c2, hrun, hmem, hm⟩ | hrun | ⟨w, hrun, hlen, hone⟩
        · refine .inl ⟨c2, ?_, List.mem_append.mpr (.inl hmem), hm⟩
          simp only [runSyms_append, hrun]
        · exact .inr (.inl (by simp only [runSyms_append, hrun]))
        · rcases run_op_tail m f 1 w s hlen with htail | ⟨v, happ, htail⟩
          · exact .inr (.inl (by simp only [runSyms_append, hrun, htail]))
          · refine .inr (.inr ⟨v :: w.drop 1, ?_,
              by simp only [List.length_cons]; omega, ?_⟩)
            · simp only [runSyms_append, hrun, htail]
            · intro hnb
              have hw1 : w.length = 1 := hone (by simpa [noBinaryIsTrue] using hnb)
              have hdrop : w.drop 1 = [] := by rw [← hw1]; exact List.drop_length _
              simp [hdrop]
  | clauseList f cs =>
    rw [serialize_clauseList] at h
    cases hin : serializeList cs fb with
    | error e2 => simp only [hin] at h; exact Except.noConfusion h
    | ok inner =>
      simp only [hin, Except.ok.injEq] at h
      subst h
      rcases run_serializeList cs fb inner hin m s with
        ⟨c2, hrun, hmem, hm⟩ | hrun | ⟨w, hrun, hlen, hone⟩
      · refine .inl ⟨c2, ?_, List.mem_append.mpr (.inl hmem), hm⟩
        simp only [runSyms_append, hrun]
      · exact .inr (.inl (by simp only [runSyms_append, hrun]))
      · rcases run_op_tail m f cs.length w s hlen with htail | ⟨v, happ, htail⟩
        · exact .inr (.inl (by simp only [runSyms_append, hrun, htail]))
        · refine .inr (.inr ⟨v :: w.drop cs.length, ?_,
            by simp only [List.length_cons]; omega, ?_⟩)
          · simp only [runSyms_append, hrun, htail]
          · intro hnb
            have hw : w.length = cs.length :=
              hone (by simpa [noBinaryIsTrue] using hnb)
            have hdrop : w.drop cs.length = [] := by
              rw [← hw]; exact List.drop_length _
            simp [hdrop]
  | binary l op r =>
    rw [serialize_binary] at h
    split at h
    · exact Except.noConfusion h
    · rename_i hnc
      cases hr : serialize r false with
      | error e2 => simp only [hr] at h; exact Except.noConfusion h
      | ok ir =>
        cases hl : serialize l false with
        | error e2 => simp only [hr, hl] at h; exact Except.noConfusion h
        | ok il =>
          simp only [hr, hl, Except.ok.injEq] at h
          subst h
          have tail := run_binary_tail m ir il (binarySym op)
            (noBinaryIsTrue r = true) (noBinaryIsTrue l = true)
            (noBinaryIsTrue (.binary l op r) = true) s
            (fun s0 => run_serialize r false ir hr m s0)
            (fun s0 => run_serialize l false il hl m s0)
            (binarySym_shape op)
            (by intro hq; simp only [noBinaryIsTrue, Bool.and_eq_true] at hq
                exact hq.2)
            (by intro hq; simp only [noBinaryIsTrue, Bool.and_eq_true] at hq
                exact hq.1.2)
            (by intro hq; simp only [noBinaryIsTrue, Bool.and_eq_true] at hq
                exact binarySym_op_of_ne op hnc hq.1.1)
          rwa [← List.append_assoc] at tail
  | other tn =>
    simp only [serialize] at h
    exact Except.noConfusion h
termination_by sizeOf e

theorem run_serializeList (cs : List ClauseElement) (fb : Bool) (syms : List RpnSymbol)
    (h : serializeList cs fb = .ok syms) (m : ColumnValues) (s : List Value) :
    (∃ c, runSyms m syms s = .error (.missingColumnValue c) ∧
        RpnSymbol.column c ∈ syms ∧ m c = Option.none) ∨
    runSyms m syms s = .error .typeError ∨
    (∃ w, runSyms m syms s = .ok (w ++ s) ∧ cs.length ≤ w.length ∧
        (noBinaryIsTrueList cs = true → w.length = cs.length)) := by
  cases cs with
  | nil =>
    simp only [serializeList, Except.ok.injEq] at h
    subst h
    exact .inr (.inr ⟨[], by simp [runSyms], by simp, by simp⟩)
  | cons c rest =>
    rw [serializeList_cons] at h
    cases hc : serialize c fb with
    | error e2 => simp only [hc] at h; exact Except.noConfusion h
    | ok ic =>
      cases hrest : serializeList rest fb with
      | error e2 => simp only [hc, hrest] at h; exact Except.noConfusion h
      | ok irest =>
        simp only [hc, hrest, Except.ok.injEq] at h
        subst h
        rcases run_serialize c fb ic hc m s with
          ⟨c2, hrun, hmem, hm⟩ | hrun | ⟨wc, hrunc, hlenc, honec⟩
        · refine .inl ⟨c2, ?_, List.mem_append.mpr (.inl hmem), hm⟩
          simp only [runSyms_append, hrun]
        · exact .inr (.inl (by simp only [runSyms_append, hrun]))
        · rcases run_serializeList rest fb irest hrest m (wc ++ s) with
            ⟨c2, hrun, hmem, hm⟩ | hrun | ⟨wrest, hrunrest, hlenrest, honerest⟩
          · refine .inl ⟨c2, ?_, List.mem_append.mpr (.inr hmem), hm⟩
            simp only [runSyms_append, hrunc, hrun]
          · exact .inr (.inl (by simp only [runSyms_append, hrunc, hrun]))
          · refine .inr (.inr ⟨wrest ++ wc, ?_, ?_, ?_⟩)
            · simp only [runSyms_append, hrunc, hrunrest, List.append_assoc]
            · simp only [List.length_append, List.length_cons]; omega
            · intro hnb
              simp only [noBinaryIsTrueList, Bool.and_eq_true] at hnb
              have h1 : wc.length = 1 := honec hnb.1
              have h2 : wrest.length = rest.length := honerest hnb.2
              simp only [List.length_append, List.length_cons]; omega
termination_by sizeOf cs

end

theorem evaluate_ok_run (syms : List RpnSymbol) (m : ColumnValues) (v : Value)
    (h : evaluate syms m = .ok v) : ∃ t, runSyms m syms [] = .ok t := by
  unfold evaluate at h
  cases hrun : runSyms m syms [] with
  | ok t => exact ⟨t, rfl⟩
  | error e => rw [hrun] at h; exact Except.noConfusion h
theorem rephrase_unary (f : Fn) (el : ClauseElement) :
    rephrase_as_boolean (.unary f el) =
      if f = .inv ∧ isColumnElem el = true then .binary el (.mapped .is_) .null
      else .unary f el := by
  rw [rephrase_as_boolean.eq_def]


theorem eval_null_col (c : Column) (g : Fn) (v u : Value)
    (happ : applyFn g [v, .none] = some u) :
    evaluate [.literal .none, .column c, .operator g 2] (singleVal c v) = .ok u := by
  simp [evaluate, runSyms, stepSym, singleVal, popn, happ]

/-- C1: for a non-boolean column `c`, compiling the bare column in
force-boolean mode and evaluating with `c` mapped to null yields `False`, and
with `c` mapped to a non-null value (e.g. 5) yields `True`; the compiled
negation `~c` in force-boolean mode evaluates to `True` exactly when the
mapping sends `c` to null. -/
theorem C1_force_bool_null_semantics (c : Column) (v : Value)
    (h : c.isBool = false) :
    (∃ syms, serialize (.column c) true = .ok syms ∧
      evaluate syms (singleVal c .none) = .ok (.bool false) ∧
      evaluate syms (singleVal c (.int 5)) = .ok (.bool true) ∧
      (v ≠ .none → evaluate syms (singleVal c v) = .ok (.bool true))) ∧
    (∃ syms2, serialize (.unary .inv (.column c)) true = .ok syms2 ∧
      (evaluate syms2 (singleVal c v) = .ok (.bool true) ↔ v = .none)) := by
  have hs : serialize (.column c) true =
      .ok [.literal .none, .column c, .operator .ne 2] := by
    rw [serialize_column, dif_pos ⟨rfl, h⟩]
    exact serialize_colpos c
  have hs2 : serialize (.unary .inv (.column c)) true =
      .ok [.literal .none, .column c, .operator .eq 2] := by
    rw [serialize_unary, dif_pos ⟨rfl, rfl, rfl⟩]
    exact serialize_colneg c
  constructor
  · refine ⟨_, hs, ?_, ?_, ?_⟩
    · exact eval_null_col c .ne .none _ (by simp [applyFn, pyEq])
    · exact eval_null_col c .ne (.int 5) _ (by simp [applyFn, pyEq])
    · intro hv
      have hf : pyEq v .none = false := by
        cases hpe : pyEq v .none
        · rfl
        · exact absurd ((pyEq_none_iff v).mp hpe) hv
      exact eval_null_col c .ne v _ (by simp [applyFn, hf])
  · refine ⟨_, hs2, ?_⟩
    rw [eval_null_col c .eq v (.bool (pyEq v .none)) rfl]
    simp only [Except.ok.injEq, Value.bool.injEq]
    exact pyEq_none_iff v

theorem C1_witness :
    (Column.mk "c" false).isBool = false ∧
    ((∃ syms, serialize (.column ⟨"c", false⟩) true = .ok syms ∧
      evaluate syms (singleVal ⟨"c", false⟩ .none) = .ok (.bool false) ∧
      evaluate syms (singleVal ⟨"c", false⟩ (.int 5)) = .ok (.bool true) ∧
      (Value.int 7 ≠ .none →
        evaluate syms (singleVal ⟨"c", false⟩ (.int 7)) = .ok (.bool true))) ∧
    (∃ syms2, serialize (.unary .inv (.column ⟨"c", false⟩)) true = .ok syms2 ∧
      (evaluate syms2 (singleVal ⟨"c", false⟩ (.int 7)) = .ok (.bool true) ↔
        Value.int 7 = .none))) :=
  ⟨rfl, C1_force_bool_null_semantics ⟨"c", false⟩ (.int 7) rfl⟩

/-- C2 (amended): for every tree the compiler accepts and every mapping
covering all referenced columns, evaluation never pops from an empty stack:
it either ends with a non-empty stack whose top value is returned, or aborts
with the `TypeError` that an operator callable raises when applied at a
mismatched argument count or to operands of unsupported types. Whenever it
completes and the tree contains no binary node carrying the mapped is-true
operator, the final stack holds exactly the one returned value. (The claim's
unconditional "exactly one value, which is returned" fails: see the
counterexample.) -/
theorem C2_stack_discipline (e : ClauseElement) (fb : Bool) (syms : List RpnSymbol)
    (m : ColumnValues) (h : serialize e fb = .ok syms)
    (hm : ∀ c ∈ columns syms, (m c).isSome) :
    (∃ v rest, runSyms m syms [] = .ok (v :: rest) ∧ evaluate syms m = .ok v ∧
      (noBinaryIsTrue e = true → rest = [])) ∨
    (runSyms m syms [] = .error .typeError ∧
      evaluate syms m = .error .typeError) := by
  rcases run_serialize e fb syms h m [] with
    ⟨c, hrun, hmem, hmc⟩ | hrun | ⟨w, hrun, hlen, hone⟩
  · have hsome := hm c ((mem_columns syms c).mpr hmem)
    rw [hmc] at hsome
    simp at hsome
  · exact .inr ⟨hrun, by simp [evaluate, hrun]⟩
  · rw [List.append_nil] at hrun
    cases w with
    | nil => simp at hlen
    | cons v rest =>
      refine .inl ⟨v, rest, hrun, by simp [evaluate, hrun], ?_⟩
      intro hnb
      have hw1 : (v :: rest).length = 1 := hone hnb
      simp only [List.length_cons] at hw1
      exact List.length_eq_zero.mp (by omega)

theorem C2_witness :
    serialize ClauseElement.null false = .ok [.literal .none] ∧
    (∀ c ∈ columns [RpnSymbol.literal .none],
      ((singleVal ⟨"a", false⟩ .none) c).isSome) ∧
    ((∃ v rest, runSyms (singleVal ⟨"a", false⟩ .none) [.literal .none] [] =
        .ok (v :: rest) ∧
      evaluate [.literal .none] (singleVal ⟨"a", false⟩ .none) = .ok v ∧
      (noBinaryIsTrue .null = true → rest = [])) ∨
    (runSyms (singleVal ⟨"a", false⟩ .none) [.literal .none] [] =
        .error .typeError ∧
      evaluate [.literal .none] (singleVal ⟨"a", false⟩ .none) =
        .error .typeError)) :=
  ⟨by simp [serialize], by simp [columns, symColumn],
    C2_stack_discipline .null false _ _ (by simp [serialize])
      (by simp [columns, symColumn])⟩
/-- C2 counterexample: the compiler accepts a binary node whose operator is
the mapped is-true operator (no error is raised for it), yet with a covering
mapping the final stack holds three values, not exactly one; evaluation
returns the top and discards the rest. -/
theorem C2_counterexample :
    serialize (.binary (.column ⟨"a", false⟩) (.mapped .istrue) .null) true =
      .ok [.literal .none, .column ⟨"a", false⟩, .literal .none] ∧
    (∀ c ∈ columns [RpnSymbol.literal .none, .column ⟨"a", false⟩, .literal .none],
      ((singleVal ⟨"a", false⟩ (.int 1)) c).isSome) ∧
    runSyms (singleVal ⟨"a", false⟩ (.int 1))
      [.literal .none, .column ⟨"a", false⟩, .literal .none] [] =
      .ok [.none, .int 1, .none] ∧
    evaluate [.literal .none, .column ⟨"a", false⟩, .literal .none]
      (singleVal ⟨"a", false⟩ (.int 1)) = .ok .none ∧
    ([Value.none, .int 1, .none].length = 1 → False) := by
  refine ⟨?_, ?_, ?_, ?_, by simp⟩
  · rw [serialize_binary]
    simp [serialize_column, serialize, binarySym, OPERATOR_MAP]
  · simp [columns, symColumn, singleVal]
  · simp [runSyms, stepSym, singleVal]
  · simp [evaluate, runSyms, stepSym, singleVal]


/-- C3: a binary node compiles to right-operand symbols, then left-operand
symbols, then one binary operator; the evaluator pops the most recently
pushed value first, so the operator callable is applied with the left operand
as the first argument: compiled `a < b` with `a=3, b=5` evaluates as `3 < 5`
(true), and with `a=5, b=3` as `5 < 3` (false). -/
theorem C3_left_right_order (l r : ClauseElement) (f : Fn) (il ir : List RpnSymbol)
    (m : ColumnValues) (vl vr u : Value) (s : List Value)
    (hl : serialize l false = .ok il) (hr : serialize r false = .ok ir)
    (happ : applyFn f [vl, vr] = some u) :
    serialize (.binary l (.raw f) r) false = .ok (ir ++ il ++ [.operator f 2]) ∧
    stepSym m (vl :: vr :: s) (.operator f 2) = .ok (u :: s) ∧
    (∃ syms, serialize (.binary (.column ⟨"a", false⟩) (.raw .lt)
        (.column ⟨"b", false⟩)) false = .ok syms ∧
      evaluate syms (twoVals ⟨"a", false⟩ (.int 3) ⟨"b", false⟩ (.int 5)) =
        .ok (.bool true) ∧
      evaluate syms (twoVals ⟨"a", false⟩ (.int 5) ⟨"b", false⟩ (.int 3)) =
        .ok (.bool false)) := by
  refine ⟨?_, ?_, ?_⟩
  · rw [serialize_binary]
    simp [hl, hr, binarySym]
  · simp [stepSym, popn, happ]
  · refine ⟨[.column ⟨"b", false⟩, .column ⟨"a", false⟩, .operator .lt 2], ?_, ?_, ?_⟩
    · rw [serialize_binary]
      simp [serialize_column, binarySym]
    · simp [evaluate, runSyms, stepSym, twoVals, popn, applyFn, pyLt, asNum]
    · simp [evaluate, runSyms, stepSym, twoVals, popn, applyFn, pyLt, asNum]

theorem C3_witness :
    serialize ClauseElement.null false = .ok [.literal .none] ∧
    applyFn .eq [.int 1, .none] = some (.bool false) ∧
    (serialize (.binary .null (.raw .eq) .null) false =
        .ok ([.literal .none] ++ [.literal .none] ++ [.operator .eq 2]) ∧
      stepSym (singleVal ⟨"a", false⟩ .none) (Value.int 1 :: Value.none :: [])
          (.operator .eq 2) = .ok (Value.bool false :: []) ∧
      (∃ syms, serialize (.binary (.column ⟨"a", false⟩) (.raw .lt)
          (.column ⟨"b", false⟩)) false = .ok syms ∧
        evaluate syms (twoVals ⟨"a", false⟩ (.int 3) ⟨"b", false⟩ (.int 5)) =
          .ok (.bool true) ∧
        evaluate syms (twoVals ⟨"a", false⟩ (.int 5) ⟨"b", false⟩ (.int 3)) =
          .ok (.bool false))) :=
  ⟨by simp [serialize], by simp [applyFn, pyEq],
    C3_left_right_order .null .null .eq [.literal .none] [.literal .none]
      (singleVal ⟨"a", false⟩ .none) (.int 1) .none (.bool false) []
      (by simp [serialize]) (by simp [serialize]) (by simp [applyFn, pyEq])⟩
/-- C4 counterexample: the boolean-coercion rewrite checks no column type on a
negation, so the logical negation of a boolean-typed column is rewritten to
"column IS NULL" instead of being returned unchanged. -/
theorem C4_counterexample :
    rephrase_as_boolean (.unary .inv (.column ⟨"b", true⟩)) =
      .binary (.column ⟨"b", true⟩) (.mapped .is_) .null ∧
    (rephrase_as_boolean (.unary .inv (.column ⟨"b", true⟩)) =
      .unary .inv (.column ⟨"b", true⟩) → False) := by
  have h1 : rephrase_as_boolean (.unary .inv (.column ⟨"b", true⟩)) =
      .binary (.column ⟨"b", true⟩) (.mapped .is_) .null := by
    rw [rephrase_unary, if_pos ⟨rfl, rfl⟩]
  refine ⟨h1, ?_⟩
  intro hh
  rw [h1] at hh
  exact ClauseElement.noConfusion hh

/-- C4 (amended): in the boolean-coercion rewrite, a logical negation whose
operand is a bare column reference of ANY type (the source performs no type
check here, so a boolean-typed column is rewritten too) becomes
"column IS NULL"; a logical negation whose operand is not a bare column, or a
unary node with a different operator, is returned unchanged. -/
theorem C4_negation_rewrite (c : Column) (f : Fn) (el : ClauseElement)
    (h : f ≠ .inv ∨ isColumnElem el = false) :
    rephrase_as_boolean (.unary .inv (.column c)) =
      .binary (.column c) (.mapped .is_) .null ∧
    rephrase_as_boolean (.unary f el) = .unary f el := by
  constructor
  · rw [rephrase_unary, if_pos ⟨rfl, rfl⟩]
  · rw [rephrase_unary, if_neg]
    rintro ⟨h1, h2⟩
    rcases h with hf | hcol
    · exact hf h1
    · rw [hcol] at h2
      exact Bool.noConfusion h2

theorem C4_witness :
    (Fn.not_ ≠ Fn.inv ∨ isColumnElem .null = false) ∧
    (rephrase_as_boolean (.unary .inv (.column ⟨"c", false⟩)) =
      .binary (.column ⟨"c", false⟩) (.mapped .is_) .null ∧
    rephrase_as_boolean (.unary .not_ .null) = .unary .not_ .null) :=
  ⟨Or.inl (by decide), C4_negation_rewrite ⟨"c", false⟩ .not_ .null (Or.inl (by decide))⟩

/-- C5 counterexample: compiling a conjunction clause list in force-boolean
mode rewrites the caller's original clause list in place, so the original tree
IS structurally modified, contradicting the claim for clause-list inputs. -/
theorem C5_counterexample :
    treeAfterCompile (.clauseList .and_ [.column ⟨"c", false⟩]) =
      .clauseList .and_ [.binary (.column ⟨"c", false⟩) (.mapped .isnot) .null] ∧
    (treeAfterCompile (.clauseList .and_ [.column ⟨"c", false⟩]) =
      .clauseList .and_ [.column ⟨"c", false⟩] → False) := by
  have h1 : treeAfterCompile (.clauseList .and_ [.column ⟨"c", false⟩]) =
      .clauseList .and_ [.binary (.column ⟨"c", false⟩) (.mapped .isnot) .null] := by
    simp [treeAfterCompile, rephrase_as_boolean, rephraseList]
  refine ⟨h1, ?_⟩
  intro hh
  rw [h1] at hh
  injection hh with hf hcs
  injection hcs with hhead htail
  exact ClauseElement.noConfusion hhead

/-- C5 (amended): compiling with the force-boolean flag stores the rephrased
tree on the `sql` attribute alongside the symbol sequence; the caller's
original tree is left untouched for every non-clause-list input (the rewrite
returns fresh or unchanged nodes), but a clause-list input has its children
replaced in place by their rephrased forms. -/
theorem C5_sql_and_aliasing (e : ClauseElement) (ex : Expression)
    (h : Expression.make e true = .ok ex) :
    ex.sql = rephrase_as_boolean e ∧
    (isClauseList e = false → treeAfterCompile e = e) ∧
    (isClauseList e = true → treeAfterCompile e = rephrase_as_boolean e) := by
  refine ⟨?_, ?_, ?_⟩
  · simp only [Expression.make] at h
    cases hs : serialize e true with
    | error e2 => rw [hs] at h; exact Except.noConfusion h
    | ok syms =>
      simp only [hs, if_pos rfl, Except.ok.injEq] at h
      rw [← h]
      simp
  · intro hcl
    cases e <;> simp [treeAfterCompile] <;> simp [isClauseList] at hcl
  · intro hcl
    cases e <;> simp [isClauseList] at hcl <;> simp [treeAfterCompile]

theorem C5_witness :
    Expression.make .null true = .ok ⟨ClauseElement.null, [.literal .none]⟩ ∧
    ((⟨ClauseElement.null, [.literal .none]⟩ : Expression).sql =
      rephrase_as_boolean .null ∧
    (isClauseList .null = false → treeAfterCompile .null = .null) ∧
    (isClauseList .null = true →
      treeAfterCompile .null = rephrase_as_boolean .null)) :=
  ⟨by simp [Expression.make, serialize, rephrase_as_boolean],
    C5_sql_and_aliasing .null _
      (by simp [Expression.make, serialize, rephrase_as_boolean])⟩

/-- C6: compiling an "as boolean" wrapper emits the wrapped column's symbol
and then, for the is-false operator, exactly one unary logical-negation
operator symbol; for the is-true operator, nothing at all. -/
theorem C6_asBoolean_asymmetry (c : Column) (fb : Bool) :
    serialize (.asBoolean c .isfalse) fb = .ok [.column c, .operator .not_ 1] ∧
    serialize (.asBoolean c .istrue) fb = .ok [.column c] := by
  constructor <;> simp [serialize, OPERATOR_MAP]

/-- C7: a binary node with an opaque custom operator fails compilation with
the unsupported-operator error, before either operand is serialized, so no
partial symbol sequence is produced (the error value carries no symbols). -/
theorem C7_custom_operator_rejected (l r : ClauseElement) (fb : Bool) (s : String) :
    serialize (.binary l (.custom s) r) fb = .error (.unsupportedOperator s) := by
  rw [serialize_binary]


/-- C8 counterexample: a wrong-arity operator application earlier in the
sequence aborts evaluation with a `TypeError` before the missing column is
ever looked up, so a mapping lacking a referenced column does not produce a
missing-column-value error: the conjunction `AND(AND(NULL), c)` serializes a
unary application of the binary `operators.and_` ahead of the column symbol,
and evaluating it against an empty mapping fails with the `TypeError`. -/
theorem C8_counterexample :
    serialize (.clauseList .and_ [.unary .and_ .null, .column ⟨"c", false⟩]) false =
      .ok [.literal .none, .operator .and_ 1, .column ⟨"c", false⟩,
        .operator .and_ 2] ∧
    RpnSymbol.column ⟨"c", false⟩ ∈
      [RpnSymbol.literal .none, .operator .and_ 1, .column ⟨"c", false⟩,
        .operator .and_ 2] ∧
    (fun _ : Column => (Option.none : Option Value)) ⟨"c", false⟩ = Option.none ∧
    evaluate [.literal .none, .operator .and_ 1, .column ⟨"c", false⟩,
        .operator .and_ 2] (fun _ : Column => (Option.none : Option Value)) =
      .error .typeError ∧
    (∀ c2, evaluate [.literal .none, .operator .and_ 1, .column ⟨"c", false⟩,
        .operator .and_ 2] (fun _ : Column => (Option.none : Option Value)) =
      .error (.missingColumnValue c2) → False) := by
  have hev : evaluate [RpnSymbol.literal .none, .operator .and_ 1,
      .column ⟨"c", false⟩, .operator .and_ 2]
      (fun _ : Column => (Option.none : Option Value)) = .error .typeError := by
    simp [evaluate, runSyms, stepSym, popn, applyFn]
  refine ⟨?_, by simp, rfl, hev, ?_⟩
  · simp [serialize, serializeList]
  · intro c2 h2
    rw [hev] at h2
    injection h2 with h3
    exact EvalError.noConfusion h3

/-- C8 (amended): for every compiled expression, if some referenced column is
absent from the mapping then evaluation fails — with a missing-column-value
error naming an absent referenced column, unless an operator application
earlier in the sequence aborts first with a `TypeError` — and it never
returns a value, so no default is ever silently substituted; if every
referenced column is present the lookup branch never fails: evaluation never
raises a missing-column-value error, it either succeeds or aborts with such a
`TypeError`. -/
theorem C8_missing_column (e : ClauseElement) (fb : Bool) (syms : List RpnSymbol)
    (m : ColumnValues) (h : serialize e fb = .ok syms) :
    ((∃ c ∈ columns syms, m c = Option.none) →
      ((∃ c2, evaluate syms m = .error (.missingColumnValue c2) ∧
          c2 ∈ columns syms ∧ m c2 = Option.none) ∨
        evaluate syms m = .error .typeError) ∧
      ∀ v, evaluate syms m = .ok v → False) ∧
    ((∀ c ∈ columns syms, (m c).isSome) →
      ((∃ v, evaluate syms m = .ok v) ∨ evaluate syms m = .error .typeError) ∧
      ∀ c2, evaluate syms m = .error (.missingColumnValue c2) → False) := by
  constructor
  · rintro ⟨c, hcmem, hcnone⟩
    constructor
    · rcases run_serialize e fb syms h m [] with
        ⟨c2, hrun, hmem, hmc⟩ | hrun | ⟨w, hrun, hlen, hone⟩
      · exact .inl ⟨c2, by simp [evaluate, hrun], (mem_columns syms c2).mpr hmem, hmc⟩
      · exact .inr (by simp [evaluate, hrun])
      · have hsome := runSyms_ok_isSome m syms [] (w ++ []) hrun c
          ((mem_columns syms c).mp hcmem)
        rw [hcnone] at hsome
        simp at hsome
    · intro v hv
      obtain ⟨t, hrun⟩ := evaluate_ok_run syms m v hv
      have hsome := runSyms_ok_isSome m syms [] t hrun c
        ((mem_columns syms c).mp hcmem)
      rw [hcnone] at hsome
      simp at hsome
  · intro hm
    rcases run_serialize e fb syms h m [] with
      ⟨c2, hrun, hmem, hmc⟩ | hrun | ⟨w, hrun, hlen, hone⟩
    · have hsome := hm c2 ((mem_columns syms c2).mpr hmem)
      rw [hmc] at hsome
      simp at hsome
    · have hev : evaluate syms m = .error .typeError := by simp [evaluate, hrun]
      refine ⟨.inr hev, ?_⟩
      intro c2 h2
      rw [hev] at h2
      injection h2 with h3
      exact EvalError.noConfusion h3
    · rw [List.append_nil] at hrun
      cases w with
      | nil => simp at hlen
      | cons v rest =>
        have hev : evaluate syms m = .ok v := by simp [evaluate, hrun]
        refine ⟨.inl ⟨v, hev⟩, ?_⟩
        intro c2 h2
        rw [hev] at h2
        exact Except.noConfusion h2

theorem C8_witness :
    serialize (.column ⟨"a", false⟩) false = .ok [.column ⟨"a", false⟩] ∧
    (((∃ c ∈ columns [RpnSymbol.column ⟨"a", false⟩],
        (fun _ : Column => (Option.none : Option Value)) c = Option.none) →
      ((∃ c2, evaluate [.column ⟨"a", false⟩]
            (fun _ : Column => (Option.none : Option Value)) =
            .error (.missingColumnValue c2) ∧
          c2 ∈ columns [RpnSymbol.column ⟨"a", false⟩] ∧
          (fun _ : Column => (Option.none : Option Value)) c2 = Option.none) ∨
        evaluate [.column ⟨"a", false⟩]
          (fun _ : Column => (Option.none : Option Value)) = .error .typeError) ∧
      ∀ v, evaluate [.column ⟨"a", false⟩]
          (fun _ : Column => (Option.none : Option Value)) = .ok v → False) ∧
    ((∀ c ∈ columns [RpnSymbol.column ⟨"a", false⟩],
        ((fun _ : Column => (Option.none : Option Value)) c).isSome) →
      ((∃ v, evaluate [.column ⟨"a", false⟩]
          (fun _ : Column => (Option.none : Option Value)) = .ok v) ∨
        evaluate [.column ⟨"a", false⟩]
          (fun _ : Column => (Option.none : Option Value)) = .error .typeError) ∧
      ∀ c2, evaluate [.column ⟨"a", false⟩]
          (fun _ : Column => (Option.none : Option Value)) =
        .error (.missingColumnValue c2) → False)) :=
  ⟨by rw [serialize_column]; simp,
    C8_missing_column (.column ⟨"a", false⟩) false _ _
      (by rw [serialize_column]; simp)⟩
/-- C9: the referenced-columns query returns exactly the set of distinct
column identifiers appearing as column-symbol payloads in the serialized
sequence: membership in the returned set coincides with occurrence in the
sequence. -/
theorem C9_referenced_columns_exact (ex : Expression) (c : Column) :
    c ∈ ex.columnSet ↔ RpnSymbol.column c ∈ ex.serialized :=
  mem_columns ex.serialized c

/-- C10: force-boolean mode is not propagated into the operands of a binary
node: serializing a binary node with the flag set produces exactly the same
result as with the flag clear, and in particular a column compared against a
bound value compiles to a plain column-reference symbol even in force-boolean
mode. -/
theorem C10_binary_ignores_force_bool (l r : ClauseElement) (op : BinOp) (c : Column) :
    serialize (.binary l op r) true = serialize (.binary l op r) false ∧
    serialize (.binary (.column c) (.raw .lt) (.bindParameter (.int 5))) true =
      .ok [.literal (.int 5), .column c, .operator .lt 2] := by
  constructor
  · rw [serialize_binary, serialize_binary]
  · rw [serialize_binary]
    simp [serialize_column, serialize, binarySym]
